import Mathlib

/-!
Shallow embedding of `src/packages/blocks/src/store/selectors.js`
(the block-types store selector layer) together with proofs about it.

JavaScript conventions captured by the embedding:
- a field that may be `undefined` is an `Option`;
- `x || y` branches on JS truthiness (`undefined`, `""`, `false`, `0` are
  falsy; objects and arrays, including `[]`, are truthy);
- a JS plain object used as a map is an association list, whose order is
  the object's key-enumeration order (lodash `filter`/`map` and
  `Object.values` iterate in that order);
- lodash `get(obj, path, default)` is a nested lookup that yields the
  default as soon as a path segment is missing;
- lodash `deburr` (Latin-1 Supplement and Latin Extended-A letters folded
  to basic Latin, combining diacritical marks removed) is modelled by an
  explicit character table;
- a selector that would throw on an unregistered block name returns `none`
  at the point where JS would raise a TypeError.
-/

namespace Blocks

/-- Block attributes, as passed to a variation matcher: a plain key/value
object. The selectors never inspect attributes themselves; they only hand
them to the block type's `variationMatcher`. -/
abbrev Attributes := List (String × String)

/-- A block variation record. `title`/`icon`/`description`/`scope` are
`Option` because a variation object may omit them; `isDefault` is falsy
when absent, so it is modelled as a plain `Bool`. -/
structure BlockVariation where
  name : String
  title : Option String := none
  icon : Option String := none
  description : Option String := none
  scope : Option (List String) := none
  isDefault : Bool := false
deriving DecidableEq

/-- A JSON-like value for the `supports` declaration tree. -/
inductive SupportValue where
  | bool : Bool → SupportValue
  | str : String → SupportValue
  | num : Int → SupportValue
  | obj : List (String × SupportValue) → SupportValue
  | null : SupportValue

/-- JS truthiness of a support value (`!!v`). -/
def truthy : SupportValue → Bool
  | .bool b => b
  | .str s => s ≠ ""
  | .num n => n ≠ 0
  | .obj _ => true
  | .null => false

/-- A registered block type. `keywords` absent behaves as the empty list
(lodash `some(undefined, f)` is false) and `category` absent behaves as
`""` for search purposes, so both are modelled in flattened form. -/
structure BlockType where
  name : String
  title : String
  icon : Option String := none
  description : Option String := none
  category : String := ""
  keywords : List String := []
  parent : Option (List String) := none
  supports : Option SupportValue := none
  variationMatcher : Option (Attributes → BlockVariation → Bool) := none

/-- A block style record (only read back verbatim by `getBlockStyles`). -/
structure BlockStyle where
  name : String
  label : String
  isDefault : Bool := false
deriving DecidableEq

/-- A block category record. -/
structure Category where
  slug : String
  title : String
deriving DecidableEq

/-- A block collection record. -/
structure Collection where
  title : String
  icon : Option String := none
deriving DecidableEq

/-- The blocks store state, as produced by the (external) reducer. The
maps are association lists in key-enumeration order. -/
structure BlocksState where
  blockTypes : List (String × BlockType) := []
  blockStyles : List (String × List BlockStyle) := []
  blockVariations : List (String × List BlockVariation) := []
  categories : List Category := []
  collections : List (String × Collection) := []
  defaultBlockName : Option String := none
  freeformFallbackBlockName : Option String := none
  unregisteredFallbackBlockName : Option String := none
  groupingBlockName : Option String := none

/-- `getBlockType( state, name )`: `state.blockTypes[ name ]`. -/
def getBlockType (state : BlocksState) (name : String) : Option BlockType :=
  state.blockTypes.lookup name

/-- The `(string|Object) nameOrType` duck-typed argument. -/
inductive NameOrType where
  | name : String → NameOrType
  | type : BlockType → NameOrType

/-- `getNormalizedBlockType`: a string is resolved through `getBlockType`
(possibly `undefined`), an object is used as-is. -/
def getNormalizedBlockType (state : BlocksState) :
    NameOrType → Option BlockType
  | .name s => getBlockType state s
  | .type bt => some bt

/-- `getBlockStyles( state, name )`: `state.blockStyles[ name ]`. -/
def getBlockStyles (state : BlocksState) (name : String) :
    Option (List BlockStyle) :=
  state.blockStyles.lookup name

/-- The backward-compatibility default scope list used when a variation
declares no `scope` field. -/
def defaultScopes : List String := ["block", "inserter"]

/-- `getBlockVariations( state, blockName, scope )`. The JS guard is
`if ( ! variations || ! scope ) return variations;`: an `undefined`
variations entry is returned as-is, and a falsy scope (absent or the
empty string) skips filtering. Otherwise keeps the variations whose
`variation.scope || [ 'block', 'inserter' ]` contains the scope. -/
def getBlockVariations (state : BlocksState) (blockName : String)
    (scope : Option String := none) : Option (List BlockVariation) :=
  match state.blockVariations.lookup blockName with
  | none => none
  | some variations =>
    match scope with
    | none => some variations
    | some sc =>
      if sc = "" then some variations
      else some (variations.filter
        (fun variation => (variation.scope.getD defaultScopes).contains sc))

/-- The record returned by `getBlockDisplayInformation`. -/
structure BlockDisplayInformation where
  title : String
  icon : Option String := none
  description : Option String := none
deriving DecidableEq

/-- JS `x || y` for an optional string against a mandatory fallback:
`some ""` is falsy. -/
def orTruthy (x : Option String) (y : String) : String :=
  match x with
  | some s => if s = "" then y else s
  | none => y

/-- JS `x || y` for two optional strings. -/
def orTruthyOpt (x y : Option String) : Option String :=
  match x with
  | some s => if s = "" then y else some s
  | none => y

/-- `getBlockDisplayInformation( state, name, attributes )`. Reads the
variations entry and the block type; building `blockTypeInfo` dereferences
`blockType.title`, so an unregistered `name` is the throwing case,
modelled as `none`. With variations and a matcher present, `find` takes
the first variation the matcher accepts and each display field is
`match.field || blockType.field`. -/
def getBlockDisplayInformation (state : BlocksState) (name : String)
    (attributes : Attributes) : Option BlockDisplayInformation :=
  match getBlockType state name with
  | none => none
  | some blockType =>
    let blockTypeInfo : BlockDisplayInformation :=
      { title := blockType.title
        icon := blockType.icon
        description := blockType.description }
    match state.blockVariations.lookup name, blockType.variationMatcher with
    | some variations, some matcher =>
      match variations.find? (fun variation => matcher attributes variation) with
      | none => some blockTypeInfo
      | some m => some
          { title := orTruthy m.title blockType.title
            icon := orTruthyOpt m.icon blockType.icon
            description := orTruthyOpt m.description blockType.description }
    | _, _ => some blockTypeInfo

/-- `getDefaultBlockVariation( state, blockName, scope )`:
`findLast( variations, 'isDefault' ) || first( variations )`, where
`variations` may be `undefined`. -/
def getDefaultBlockVariation (state : BlocksState) (blockName : String)
    (scope : Option String := none) : Option BlockVariation :=
  match getBlockVariations state blockName scope with
  | none => none
  | some variations =>
    (variations.reverse.find? (fun v => v.isDefault)).orElse
      (fun _ => variations.head?)

/-- `getCategories( state )`. -/
def getCategories (state : BlocksState) : List Category :=
  state.categories

/-- `getCollections( state )`. -/
def getCollections (state : BlocksState) : List (String × Collection) :=
  state.collections

/-- `getDefaultBlockName( state )`. -/
def getDefaultBlockName (state : BlocksState) : Option String :=
  state.defaultBlockName

/-- `getFreeformFallbackBlockName( state )`. -/
def getFreeformFallbackBlockName (state : BlocksState) : Option String :=
  state.freeformFallbackBlockName

/-- `getUnregisteredFallbackBlockName( state )`. -/
def getUnregisteredFallbackBlockName (state : BlocksState) : Option String :=
  state.unregisteredFallbackBlockName

/-- `getGroupingBlockName( state )`. -/
def getGroupingBlockName (state : BlocksState) : Option String :=
  state.groupingBlockName

/-- `includes( blockType.parent, blockName )`: an absent `parent` behaves
as the empty list. -/
def parentList (blockType : BlockType) : List String :=
  blockType.parent.getD []

/-- `getChildBlockNames( state, blockName )`: lodash-`filter` the type
map's values by `includes( blockType.parent, blockName )`, then map each
kept block type to its own `name` field. -/
def getChildBlockNames (state : BlocksState) (blockName : String) :
    List String :=
  (state.blockTypes.filter
      (fun kv => (parentList kv.2).contains blockName)).map
    (fun kv => kv.2.name)

/-- A `getBlockTypes` entry: `{ ...blockType, variations: ... }`. -/
structure BlockTypeWithVariations where
  blockType : BlockType
  variations : Option (List BlockVariation)

/-- `getBlockTypes( state )`: every value of the type map, spread together
with `variations: getBlockVariations( state, blockType.name )`. -/
def getBlockTypes (state : BlocksState) : List BlockTypeWithVariations :=
  (state.blockTypes.map (fun kv => kv.2)).map
    (fun blockType =>
      { blockType := blockType
        variations := getBlockVariations state blockType.name none })

/-- JS `string.split( sep )` for a one-character separator: `""` splits
to `[""]`, and every separator occurrence starts a new piece. -/
def splitChar (sep : Char) : List Char → List String
  | [] => [""]
  | c :: t =>
    if c = sep then "" :: splitChar sep t
    else
      match splitChar sep t with
      | [] => [String.singleton c]
      | r :: rs => (String.singleton c ++ r) :: rs

/-- Lodash `get` specialised to the supports tree: follows the keys
through nested objects, returning the default as soon as a key is missing
or an intermediate value is not an object. -/
def pathGet : SupportValue → List String → SupportValue → SupportValue
  | v, [], _ => v
  | .obj fields, k :: ks, dflt =>
    match fields.lookup k with
    | some v => pathGet v ks dflt
    | none => dflt
  | _, _ :: _, dflt => dflt

/-- `getBlockSupport( state, nameOrType, feature, defaultSupports )`:
`get( blockType, [ 'supports', ...feature.split( '.' ) ], default )`. -/
def getBlockSupport (state : BlocksState) (nameOrType : NameOrType)
    (feature : String) (defaultSupports : SupportValue) : SupportValue :=
  match getNormalizedBlockType state nameOrType with
  | none => defaultSupports
  | some blockType =>
    match blockType.supports with
    | none => defaultSupports
    | some tree => pathGet tree (splitChar '.' feature.data) defaultSupports

/-- `hasBlockSupport`: `!! getBlockSupport( ... )`. -/
def hasBlockSupport (state : BlocksState) (nameOrType : NameOrType)
    (feature : String) (defaultSupports : SupportValue) : Bool :=
  truthy (getBlockSupport state nameOrType feature defaultSupports)

/-- One character of lodash `deburr`: fold a Latin-1 Supplement or Latin
Extended-A letter to its basic-Latin expansion; other characters are kept
(combining marks are handled separately). -/
def deburrLetter : Char → String
  | 'À' | 'Á' | 'Â' | 'Ã' | 'Ä' | 'Å' | 'Ā' | 'Ă' | 'Ą' => "A"
  | 'à' | 'á' | 'â' | 'ã' | 'ä' | 'å' | 'ā' | 'ă' | 'ą' => "a"
  | 'Ç' | 'Ć' | 'Ĉ' | 'Ċ' | 'Č' => "C"
  | 'ç' | 'ć' | 'ĉ' | 'ċ' | 'č' => "c"
  | 'Ð' | 'Ď' | 'Đ' => "D"
  | 'ð' | 'ď' | 'đ' => "d"
  | 'È' | 'É' | 'Ê' | 'Ë' | 'Ē' | 'Ĕ' | 'Ė' | 'Ę' | 'Ě' => "E"
  | 'è' | 'é' | 'ê' | 'ë' | 'ē' | 'ĕ' | 'ė' | 'ę' | 'ě' => "e"
  | 'Ĝ' | 'Ğ' | 'Ġ' | 'Ģ' => "G"
  | 'ĝ' | 'ğ' | 'ġ' | 'ģ' => "g"
  | 'Ĥ' | 'Ħ' => "H"
  | 'ĥ' | 'ħ' => "h"
  | 'Ì' | 'Í' | 'Î' | 'Ï' | 'Ĩ' | 'Ī' | 'Ĭ' | 'Į' | 'İ' => "I"
  | 'ì' | 'í' | 'î' | 'ï' | 'ĩ' | 'ī' | 'ĭ' | 'į' | 'ı' => "i"
  | 'Ĵ' => "J"
  | 'ĵ' => "j"
  | 'Ķ' => "K"
  | 'ķ' | 'ĸ' => "k"
  | 'Ĺ' | 'Ļ' | 'Ľ' | 'Ŀ' | 'Ł' => "L"
  | 'ĺ' | 'ļ' | 'ľ' | 'ŀ' | 'ł' => "l"
  | 'Ñ' | 'Ń' | 'Ņ' | 'Ň' | 'Ŋ' => "N"
  | 'ñ' | 'ń' | 'ņ' | 'ň' | 'ŋ' => "n"
  | 'Ò' | 'Ó' | 'Ô' | 'Õ' | 'Ö' | 'Ø' | 'Ō' | 'Ŏ' | 'Ő' => "O"
  | 'ò' | 'ó' | 'ô' | 'õ' | 'ö' | 'ø' | 'ō' | 'ŏ' | 'ő' => "o"
  | 'Ŕ' | 'Ŗ' | 'Ř' => "R"
  | 'ŕ' | 'ŗ' | 'ř' => "r"
  | 'Ś' | 'Ŝ' | 'Ş' | 'Š' => "S"
  | 'ś' | 'ŝ' | 'ş' | 'š' | 'ſ' => "s"
  | 'Ţ' | 'Ť' | 'Ŧ' => "T"
  | 'ţ' | 'ť' | 'ŧ' => "t"
  | 'Ù' | 'Ú' | 'Û' | 'Ü' | 'Ũ' | 'Ū' | 'Ŭ' | 'Ů' | 'Ű' | 'Ų' => "U"
  | 'ù' | 'ú' | 'û' | 'ü' | 'ũ' | 'ū' | 'ŭ' | 'ů' | 'ű' | 'ų' => "u"
  | 'Ŵ' => "W"
  | 'ŵ' => "w"
  | 'Ý' | 'Ŷ' | 'Ÿ' => "Y"
  | 'ý' | 'ÿ' | 'ŷ' => "y"
  | 'Ź' | 'Ż' | 'Ž' => "Z"
  | 'ź' | 'ż' | 'ž' => "z"
  | 'Æ' => "Ae"
  | 'æ' => "ae"
  | 'Þ' => "Th"
  | 'þ' => "th"
  | 'ß' => "ss"
  | 'Œ' => "Oe"
  | 'œ' => "oe"
  | 'Ĳ' => "IJ"
  | 'ĳ' => "ij"
  | 'ŉ' => "\x27n"
  | c => String.singleton c

/-- Lodash `reComboMark`: combining diacritical marks, stripped by
`deburr`. -/
def isComboMark (c : Char) : Bool :=
  (0x300 ≤ c.val && c.val ≤ 0x36F) ||
  (0xFE20 ≤ c.val && c.val ≤ 0xFE2F) ||
  (0x20D0 ≤ c.val && c.val ≤ 0x20FF)

/-- Lodash `deburr`. -/
def deburr (s : String) : String :=
  String.join (s.data.map
    (fun c => if isComboMark c then "" else deburrLetter c))

/-- JS `toLowerCase`, character by character. -/
def toLowerStr (s : String) : String :=
  ⟨s.data.map Char.toLower⟩

/-- The whitespace class stripped by JS `trim`. -/
def isTrimWhitespace (c : Char) : Bool :=
  c = ' ' || c = '\t' || c = '\n' || c = '\r' ||
  c.val = 0xB || c.val = 0xC || c.val = 0xA0 ||
  c.val = 0x2028 || c.val = 0x2029 || c.val = 0xFEFF

/-- JS `trim`: strip leading and trailing whitespace. -/
def jsTrim (s : String) : String :=
  ⟨((s.data.dropWhile isTrimWhitespace).reverse.dropWhile
      isTrimWhitespace).reverse⟩

/-- The `flow` pipeline `getNormalizedSearchTerm`: deburr, lowercase,
trim. -/
def getNormalizedSearchTerm (term : String) : String :=
  jsTrim (toLowerStr (deburr term))

/-- Substring test on character lists, as in lodash
`includes( haystack, needle )` on strings. -/
def containsSub (hay needle : List Char) : Bool :=
  if needle.isPrefixOf hay then true
  else
    match hay with
    | [] => false
    | _ :: t => containsSub t needle

/-- Lodash `includes( haystack, needle )` on strings. -/
def strIncludes (hay needle : String) : Bool :=
  containsSub hay.data needle.data

/-- `isMatchingSearchTerm( state, nameOrType, searchTerm )`. Dereferencing
`blockType.title` on an unresolved block type is the throwing case,
modelled as `none`. -/
def isMatchingSearchTerm (state : BlocksState) (nameOrType : NameOrType)
    (searchTerm : String) : Option Bool :=
  match getNormalizedBlockType state nameOrType with
  | none => none
  | some blockType =>
    let normalizedSearchTerm := getNormalizedSearchTerm searchTerm
    let isSearchMatch := fun (candidate : String) =>
      strIncludes (getNormalizedSearchTerm candidate) normalizedSearchTerm
    some (isSearchMatch blockType.title
      || blockType.keywords.any isSearchMatch
      || isSearchMatch blockType.category)

/-- The declared `supports.inserter` value of a block type, if any:
present exactly when `supports` is an object with an `inserter` key. -/
def declaredInserter (blockType : BlockType) : Option SupportValue :=
  match blockType.supports with
  | some (.obj fields) => fields.lookup "inserter"
  | _ => none

/-- The effective `inserter` support value of a block type: the declared
`supports.inserter`, or the default `true` when unspecified. -/
def inserterSupportValue (blockType : BlockType) : SupportValue :=
  match declaredInserter blockType with
  | some v => v
  | none => .bool true

/-- `hasChildBlocks( state, blockName )`. -/
def hasChildBlocks (state : BlocksState) (blockName : String) : Bool :=
  (getChildBlockNames state blockName).length > 0

/-- `hasChildBlocksWithInserterSupport( state, blockName )`: lodash `some`
over the child names, testing `hasBlockSupport( state, child, 'inserter',
true )`. -/
def hasChildBlocksWithInserterSupport (state : BlocksState)
    (blockName : String) : Bool :=
  (getChildBlockNames state blockName).any
    (fun childBlockName =>
      hasBlockSupport state (.name childBlockName) "inserter" (.bool true))

/-! ### Specification-side notions -/

/-- `needle` is a substring of `hay` (contiguous character run). -/
def IsSubstrOf (needle hay : String) : Prop :=
  ∃ p s : List Char, hay.data = p ++ needle.data ++ s

/-- Path traversal through the supports tree, as a relation:
`PathFound tree ks w` says following the key sequence `ks` through nested
objects starting at `tree` reaches the value `w` with no segment
missing. -/
inductive PathFound : SupportValue → List String → SupportValue → Prop
  | nil (v : SupportValue) : PathFound v [] v
  | cons {fields : List (String × SupportValue)} {k : String}
      {ks : List String} {v w : SupportValue} :
      fields.lookup k = some v → PathFound v ks w →
      PathFound (SupportValue.obj fields) (k :: ks) w

/-- The registry invariant maintained by the external reducer: each block
type is stored under its own name, and names are unique. -/
def WellFormedTypes (st : BlocksState) : Prop :=
  (∀ kv ∈ st.blockTypes, kv.1 = kv.2.name) ∧
  (st.blockTypes.map (fun kv => kv.1)).Nodup

/-! ### Concrete example registries -/

/-- A variation whose `title` field is present but holds the empty
string. -/
def c1Var : BlockVariation :=
  { name := "v", title := some "" }

/-- A block type whose matcher accepts every variation. -/
def c1Bt : BlockType :=
  { name := "core/test", title := "Base", icon := some "base-icon"
    description := some "base-desc"
    variationMatcher := some (fun _ _ => true) }

/-- Registry for the `getBlockDisplayInformation` empty-title case. -/
def c1St : BlocksState :=
  { blockTypes := [("core/test", c1Bt)]
    blockVariations := [("core/test", [c1Var])] }

/-- A variation carrying only a (non-empty) custom title. -/
def c1wVar : BlockVariation :=
  { name := "special", title := some "Special" }

/-- Registry for the title-only variation overlay example. -/
def c1wSt : BlocksState :=
  { blockTypes := [("core/test", c1Bt)]
    blockVariations := [("core/test", [c1wVar])] }

/-- Default-flagged variation `A`. -/
def c2A : BlockVariation := { name := "a", isDefault := true }

/-- Default-flagged variation `B`. -/
def c2B : BlockVariation := { name := "b", isDefault := true }

/-- Unflagged variation `C`. -/
def c2C : BlockVariation := { name := "c" }

/-- Registry with variations `[A(isDefault), B(isDefault), C]`. -/
def c2St : BlocksState :=
  { blockVariations := [("core/blk", [c2A, c2B, c2C])] }

/-- A variation whose declared scope is `[block]` only. -/
def c3Var : BlockVariation := { name := "v", scope := some ["block"] }

/-- Registry for the empty-string-scope observation. -/
def c3St : BlocksState :=
  { blockVariations := [("core/x", [c3Var])] }

/-- A variation with no declared scope (defaults to block and
inserter). -/
def c3wV1 : BlockVariation := { name := "v1" }

/-- A variation scoped to `transform` only. -/
def c3wV2 : BlockVariation := { name := "v2", scope := some ["transform"] }

/-- Registry for the scope-filtering example. -/
def c3wSt : BlocksState :=
  { blockVariations := [("core/blk", [c3wV1, c3wV2])] }

/-- The supports tree `color.background = "red"`. -/
def c4Tree : SupportValue :=
  .obj [("color", .obj [("background", .str "red")])]

/-- A block type declaring the `c4Tree` supports. -/
def c4Bt : BlockType :=
  { name := "core/image", title := "Image", supports := some c4Tree }

/-- Registry for the `getBlockSupport` nested-path example. -/
def c4St : BlocksState :=
  { blockTypes := [("core/image", c4Bt)] }

/-- A block type titled `media library`. -/
def c5Bt : BlockType :=
  { name := "core/media", title := "media library", category := "common" }

/-- Registry for the diacritic-insensitive search example. -/
def c5St : BlocksState :=
  { blockTypes := [("core/media", c5Bt)] }

/-- A column block type declaring `core/columns` as parent. -/
def c6Child : BlockType :=
  { name := "core/column", title := "Column", parent := some ["core/columns"] }

/-- A block type with no parent declaration. -/
def c6Other : BlockType := { name := "core/image", title := "Image" }

/-- Registry for the child-block-names example. -/
def c6St : BlocksState :=
  { blockTypes := [("core/column", c6Child), ("core/image", c6Other)] }

/-- A block type whose parent list names an unregistered block. -/
def c7Bt : BlockType :=
  { name := "core/a", title := "A", parent := some ["core/missing"] }

/-- A variation stored under an unregistered block name. -/
def c7Var : BlockVariation := { name := "v" }

/-- Registry holding data keyed by the unregistered name
`core/missing`. -/
def c7St : BlocksState :=
  { blockTypes := [("core/a", c7Bt)]
    blockVariations := [("core/missing", [c7Var])] }

/-- Registry with nothing registered at all. -/
def c7wSt : BlocksState := { }

/-- A block type for the `getBlockTypes` annotation example. -/
def c8Bt : BlockType := { name := "core/a", title := "A" }

/-- A variation attached to `core/a`. -/
def c8Var : BlockVariation := { name := "v" }

/-- Registry for the `getBlockTypes` annotation example. -/
def c8St : BlocksState :=
  { blockTypes := [("core/a", c8Bt)]
    blockVariations := [("core/a", [c8Var])] }

/-- A child declaring `supports.inserter = false`. -/
def c9A : BlockType :=
  { name := "core/a", title := "A", parent := some ["core/columns"]
    supports := some (.obj [("inserter", .bool false)]) }

/-- Another child declaring `supports.inserter = false`. -/
def c9B : BlockType :=
  { name := "core/b", title := "B", parent := some ["core/columns"]
    supports := some (.obj [("inserter", .bool false)]) }

/-- Registry whose children all switch the inserter off. -/
def c9St : BlocksState :=
  { blockTypes := [("core/a", c9A), ("core/b", c9B)] }

/-- A plain block type for the empty-search-term example. -/
def c10Bt : BlockType := { name := "core/x", title := "Anything" }

/-- Registry for the empty-search-term example. -/
def c10St : BlocksState :=
  { blockTypes := [("core/x", c10Bt)] }

/-! ### Helper lemmas -/

theorem containsSub_iff (hay needle : List Char) :
    containsSub hay needle = true ↔ ∃ p s, hay = p ++ needle ++ s := by
  induction hay with
  | nil =>
    rw [containsSub]
    constructor
    · intro h
      cases needle with
      | nil => exact ⟨[], [], rfl⟩
      | cons a t => simp [List.isPrefixOf] at h
    · rintro ⟨p, s, hps⟩
      have h0 := List.append_eq_nil.mp hps.symm
      have h1 := List.append_eq_nil.mp h0.1
      simp [h1.2, List.isPrefixOf]
  | cons c t ih =>
    rw [containsSub]
    by_cases hp : needle.isPrefixOf (c :: t) = true
    · rw [if_pos hp]
      simp only [true_iff]
      obtain ⟨s, hs⟩ := List.isPrefixOf_iff_prefix.mp hp
      exact ⟨[], s, by simp [hs]⟩
    · rw [if_neg hp]
      show containsSub t needle = true ↔ _
      rw [ih]
      constructor
      · rintro ⟨p, s, hps⟩
        exact ⟨c :: p, s, by simp [hps]⟩
      · rintro ⟨p, s, hps⟩
        cases p with
        | nil =>
          exfalso
          apply hp
          rw [List.isPrefixOf_iff_prefix]
          exact ⟨s, by simpa using hps.symm⟩
        | cons c2 p2 =>
          rw [List.cons_append, List.cons_append] at hps
          injection hps with h1 h2
          exact ⟨p2, s, h2⟩

theorem strIncludes_iff (hay needle : String) :
    strIncludes hay needle = true ↔ IsSubstrOf needle hay :=
  containsSub_iff hay.data needle.data

theorem containsSub_nil_needle (hay : List Char) :
    containsSub hay [] = true := by
  cases hay <;> rw [containsSub] <;> simp [List.isPrefixOf]

theorem pathGet_of_pathFound {tree : SupportValue} {ks : List String}
    {w : SupportValue} (h : PathFound tree ks w) (d : SupportValue) :
    pathGet tree ks d = w := by
  induction h with
  | nil v => simp [pathGet]
  | cons hlk hpf ih => simp [pathGet, hlk, ih]

theorem pathGet_of_not_pathFound {tree : SupportValue} {ks : List String}
    (h : ∀ w, ¬ PathFound tree ks w) (d : SupportValue) :
    pathGet tree ks d = d := by
  induction ks generalizing tree with
  | nil => exact absurd (PathFound.nil tree) (h tree)
  | cons k kt ih =>
    cases tree with
    | obj fields =>
      cases hlk : fields.lookup k with
      | none => simp [pathGet, hlk]
      | some v =>
        have hv : ∀ w, ¬ PathFound v kt w :=
          fun w hw => h w (PathFound.cons hlk hw)
        simp [pathGet, hlk, ih hv]
    | bool b => simp [pathGet]
    | str s => simp [pathGet]
    | num n => simp [pathGet]
    | null => simp [pathGet]

theorem lookup_of_mem_nodupKeys {l : List (String × BlockType)}
    {k : String} {v : BlockType}
    (hnd : (l.map (fun kv => kv.1)).Nodup) (hmem : (k, v) ∈ l) :
    l.lookup k = some v := by
  induction l with
  | nil => cases hmem
  | cons a t ih =>
    rw [List.map_cons, List.nodup_cons] at hnd
    rcases List.mem_cons.mp hmem with heq | htail
    · subst heq
      simp [List.lookup_cons]
    · rw [List.lookup_cons]
      have hk : (k == a.1) = false := by
        rw [beq_eq_false_iff_ne]
        intro hkeq
        exact hnd.1 (hkeq ▸ List.mem_map_of_mem (fun kv => kv.1) htail)
      rw [hk]
      exact ih hnd.2 htail

theorem contains_eq_decide_mem (l : List String) (a : String) :
    l.contains a = decide (a ∈ l) := by
  simp [List.contains]

theorem getBlockSupport_inserter (st : BlocksState) (nt : NameOrType)
    (bt : BlockType) (h : getNormalizedBlockType st nt = some bt) :
    getBlockSupport st nt "inserter" (.bool true) = inserterSupportValue bt := by
  rw [getBlockSupport, h]
  have hsplit : splitChar '.' "inserter".data = ["inserter"] := by decide
  cases hs : bt.supports with
  | none => simp [inserterSupportValue, declaredInserter, hs]
  | some tree =>
    rw [hsplit]
    cases tree with
    | obj fields =>
      cases hlk : fields.lookup "inserter" with
      | none => simp [pathGet, hlk, inserterSupportValue, declaredInserter, hs]
      | some v =>
        simp [pathGet, hlk, inserterSupportValue, declaredInserter, hs]
    | bool b => simp [pathGet, inserterSupportValue, declaredInserter, hs]
    | str s => simp [pathGet, inserterSupportValue, declaredInserter, hs]
    | num n => simp [pathGet, inserterSupportValue, declaredInserter, hs]
    | null => simp [pathGet, inserterSupportValue, declaredInserter, hs]

/-! ### Claim theorems -/

/-- C2: for every state, block name and optional scope,
`getDefaultBlockVariation` returns `none` when the scoped variations are
absent; on a scoped variation list it returns `none` for the empty list,
the last variation flagged `isDefault` when one exists, and the first
variation when none is flagged. -/
theorem getDefaultBlockVariation_spec (st : BlocksState) (b : String)
    (sc : Option String) :
    (getBlockVariations st b sc = none →
      getDefaultBlockVariation st b sc = none) ∧
    (∀ vs, getBlockVariations st b sc = some vs →
      (vs = [] → getDefaultBlockVariation st b sc = none) ∧
      (∀ v l₁ l₂, vs = l₁ ++ v :: l₂ → v.isDefault = true →
        (∀ u ∈ l₂, u.isDefault = false) →
        getDefaultBlockVariation st b sc = some v) ∧
      ((∀ v ∈ vs, v.isDefault = false) →
        getDefaultBlockVariation st b sc = vs.head?)) := by
  constructor
  · intro h
    simp [getDefaultBlockVariation, h]
  · intro vs hvs
    refine ⟨?_, ?_, ?_⟩
    · rintro rfl
      simp [getDefaultBlockVariation, hvs, Option.orElse]
    · intro v l₁ l₂ hsplit hdef hlast
      subst hsplit
      have hfind :
          (l₁ ++ v :: l₂).reverse.find? (fun u => u.isDefault) = some v := by
        rw [List.find?_eq_some]
        refine ⟨hdef, l₂.reverse, l₁.reverse, ?_, ?_⟩
        · simp
        · intro a ha
          simp [hlast a (List.mem_reverse.mp ha)]
      simp only [getDefaultBlockVariation, hvs, hfind, Option.orElse]
    · intro hnone
      have hfind : vs.reverse.find? (fun u => u.isDefault) = none := by
        rw [List.find?_eq_none]
        intro x hx
        simp [hnone x (List.mem_reverse.mp hx)]
      simp only [getDefaultBlockVariation, hvs, hfind, Option.orElse]

/-- C2 witness: on variations `[A(isDefault), B(isDefault), C]` the
default variation is `B`, the last one flagged. -/
theorem getDefaultBlockVariation_witness :
    getDefaultBlockVariation c2St "core/blk" none = some c2B :=
  (((getDefaultBlockVariation_spec c2St "core/blk" none).2
      [c2A, c2B, c2C] rfl).2.1) c2B [c2A] [c2C] rfl rfl (by decide)

/-- C3 counterexample: the claim quantifies over every given scope, but
for the given scope `""` (falsy in JS) the code skips filtering: the
variation `c3Var`, whose effective scope set `[block]` does not contain
`""`, is still returned. -/
theorem getBlockVariations_empty_scope_counterexample :
    getBlockVariations c3St "core/x" (some "") = some [c3Var] ∧
    ¬ "" ∈ c3Var.scope.getD defaultScopes := by
  refine ⟨rfl, by decide⟩

/-- C3 (amended): with no scope argument, or with the empty-string scope,
`getBlockVariations` returns the stored variations unfiltered (and `none`
when no variations are stored); for a given non-empty scope it returns
exactly the stored variations whose effective scope set (declared, or
defaulted to `[block, inserter]`) contains that scope, in stored order. -/
theorem getBlockVariations_spec (st : BlocksState) (b : String) :
    (getBlockVariations st b none = st.blockVariations.lookup b) ∧
    (getBlockVariations st b (some "") = st.blockVariations.lookup b) ∧
    (st.blockVariations.lookup b = none →
      ∀ sc, getBlockVariations st b sc = none) ∧
    (∀ sc : String, sc ≠ "" → ∀ vs, st.blockVariations.lookup b = some vs →
      ∃ res, getBlockVariations st b (some sc) = some res ∧
        res.Sublist vs ∧
        ∀ v, v ∈ res ↔ v ∈ vs ∧ sc ∈ v.scope.getD defaultScopes) := by
  refine ⟨?_, ?_, ?_, ?_⟩
  · cases h : st.blockVariations.lookup b <;>
      simp [getBlockVariations, h]
  · cases h : st.blockVariations.lookup b <;>
      simp [getBlockVariations, h]
  · intro h sc
    cases sc <;> simp [getBlockVariations, h]
  · intro sc hsc vs hvs
    refine ⟨vs.filter
      (fun variation => (variation.scope.getD defaultScopes).contains sc),
      ?_, List.filter_sublist _, ?_⟩
    · simp [getBlockVariations, hvs, hsc]
    · intro v
      rw [List.mem_filter, contains_eq_decide_mem, decide_eq_true_iff]

/-- C3 witness: filtering `[v1 (no scope), v2 (scope transform)]` by the
scope `inserter` keeps exactly the variations whose effective scope set
contains `inserter`. -/
theorem getBlockVariations_witness :
    ∃ res, getBlockVariations c3wSt "core/blk" (some "inserter") = some res ∧
      res.Sublist [c3wV1, c3wV2] ∧
      ∀ v, v ∈ res ↔ v ∈ [c3wV1, c3wV2] ∧
        "inserter" ∈ v.scope.getD defaultScopes :=
  (getBlockVariations_spec c3wSt "core/blk").2.2.2 "inserter" (by decide)
    [c3wV1, c3wV2] rfl

/-- C4: `getBlockSupport` returns the default when the block type cannot
be resolved or declares no supports; otherwise it splits the feature path
on `.` and traverses the supports tree along those keys, returning the
value found there, and the default when no value is reachable (some
segment is missing). -/
theorem getBlockSupport_spec (st : BlocksState) (nameOrType : NameOrType)
    (feature : String) (d : SupportValue) :
    (getNormalizedBlockType st nameOrType = none →
      getBlockSupport st nameOrType feature d = d) ∧
    (∀ bt, getNormalizedBlockType st nameOrType = some bt →
      (bt.supports = none → getBlockSupport st nameOrType feature d = d) ∧
      (∀ tree, bt.supports = some tree →
        (∀ w, PathFound tree (splitChar '.' feature.data) w →
          getBlockSupport st nameOrType feature d = w) ∧
        ((∀ w, ¬ PathFound tree (splitChar '.' feature.data) w) →
          getBlockSupport st nameOrType feature d = d))) := by
  constructor
  · intro h
    simp [getBlockSupport, h]
  · intro bt hbt
    constructor
    · intro h
      simp [getBlockSupport, hbt, h]
    · intro tree htree
      constructor
      · intro w hw
        simp [getBlockSupport, hbt, htree, pathGet_of_pathFound hw]
      · intro hnone
        simp [getBlockSupport, hbt, htree, pathGet_of_not_pathFound hnone]

/-- C4 witness: on a registry where `core/image` declares
`color.background = "red"`, the feature path `color.background` resolves
to that nested value with default `false`. -/
theorem getBlockSupport_witness :
    getBlockSupport c4St (.name "core/image") "color.background"
      (.bool false) = .str "red" :=
  (((getBlockSupport_spec c4St (.name "core/image") "color.background"
      (.bool false)).2 c4Bt rfl).2 c4Tree rfl).1 (.str "red")
    (by
      have hs : splitChar '.' "color.background".data =
          ["color", "background"] := by decide
      rw [hs]
      exact PathFound.cons rfl (PathFound.cons rfl (PathFound.nil _)))

/-- C1 counterexample: the claim says a display field comes from the
matched variation whenever the field is present on it, but the overlay
uses JS truthiness (`match.title || blockType.title`), not presence: the
variation `c1Var` carries the present-but-empty title `""` and is matched
(its matcher accepts everything), yet the returned title is the
BlockType's `"Base"`, not `""`. -/
theorem getBlockDisplayInformation_counterexample :
    c1St.blockVariations.lookup "core/test" = some [c1Var] ∧
    c1Var.title = some "" ∧
    getBlockDisplayInformation c1St "core/test" [] = some
      { title := "Base", icon := some "base-icon"
        description := some "base-desc" } ∧
    ("Base" : String) ≠ "" :=
  ⟨rfl, rfl, rfl, by decide⟩

/-- C1 (amended): for a registered block name with a declared
variation-matcher and a non-empty variation list,
`getBlockDisplayInformation` evaluates the matcher over the variations in
listed order; with a first match `v` it overlays the matched variation's
title/icon/description only where the field is present with a truthy
(non-empty) value, falling back to the BlockType's field otherwise, and
with no match it returns the BlockType's own fields. -/
theorem getBlockDisplayInformation_spec (st : BlocksState) (name : String)
    (attributes : Attributes) (bt : BlockType)
    (m : Attributes → BlockVariation → Bool) (vs : List BlockVariation)
    (hbt : getBlockType st name = some bt)
    (hm : bt.variationMatcher = some m)
    (hvs : st.blockVariations.lookup name = some vs)
    (hne : vs ≠ []) :
    (∀ v l₁ l₂, vs = l₁ ++ v :: l₂ → m attributes v = true →
      (∀ u ∈ l₁, m attributes u = false) →
      getBlockDisplayInformation st name attributes = some
        { title := orTruthy v.title bt.title
          icon := orTruthyOpt v.icon bt.icon
          description := orTruthyOpt v.description bt.description }) ∧
    ((∀ v ∈ vs, m attributes v = false) →
      getBlockDisplayInformation st name attributes = some
        { title := bt.title, icon := bt.icon
          description := bt.description }) := by
  constructor
  · intro v l₁ l₂ hsplit hv hfirst
    subst hsplit
    have hfind : (l₁ ++ v :: l₂).find?
        (fun variation => m attributes variation) = some v := by
      rw [List.find?_eq_some]
      exact ⟨hv, l₁, l₂, rfl, fun a ha => by simp [hfirst a ha]⟩
    simp only [getBlockDisplayInformation, hbt, hvs, hm, hfind]
  · intro hnone
    have hfind : vs.find? (fun variation => m attributes variation) = none :=
      List.find?_eq_none.mpr (fun x hx => by simp [hnone x hx])
    simp only [getBlockDisplayInformation, hbt, hvs, hm, hfind]

/-- C1 witness: a matched variation with only a (non-empty) title set
yields the variation's title together with the BlockType's icon and
description. -/
theorem getBlockDisplayInformation_witness :
    getBlockDisplayInformation c1wSt "core/test" [] = some
      { title := "Special", icon := some "base-icon"
        description := some "base-desc" } :=
  (getBlockDisplayInformation_spec c1wSt "core/test" [] c1Bt
      (fun _ _ => true) [c1wVar] rfl rfl rfl (by simp)).1
    c1wVar [] [] rfl rfl (by simp)

/-- C5: for a resolvable block type, `isMatchingSearchTerm` is true
exactly when the normalized search term (diacritics removed, lowercased,
trimmed) is a substring of the equally normalized title, of some equally
normalized keyword, or of the equally normalized category. -/
theorem isMatchingSearchTerm_spec (st : BlocksState) (nameOrType : NameOrType)
    (bt : BlockType) (searchTerm : String)
    (hbt : getNormalizedBlockType st nameOrType = some bt) :
    isMatchingSearchTerm st nameOrType searchTerm = some true ↔
      (IsSubstrOf (getNormalizedSearchTerm searchTerm)
          (getNormalizedSearchTerm bt.title) ∨
        (∃ kw ∈ bt.keywords,
          IsSubstrOf (getNormalizedSearchTerm searchTerm)
            (getNormalizedSearchTerm kw)) ∨
        IsSubstrOf (getNormalizedSearchTerm searchTerm)
          (getNormalizedSearchTerm bt.category)) := by
  simp only [isMatchingSearchTerm, hbt, Option.some.injEq,
    Bool.or_eq_true, List.any_eq_true, strIncludes_iff]
  exact or_assoc

/-- C5 witness: the search term `" MÉDIA "` matches the title
`"media library"` (diacritic-insensitive, case-insensitive,
whitespace-trimmed substring match). -/
theorem isMatchingSearchTerm_witness :
    isMatchingSearchTerm c5St (.name "core/media") " MÉDIA " = some true :=
  (isMatchingSearchTerm_spec c5St (.name "core/media") c5Bt
      " MÉDIA " rfl).mpr
    (Or.inl ⟨[], " library".data, by decide⟩)

/-- C6: `getChildBlockNames` returns exactly the `name` fields of the
registered block types whose parent list contains the given block name,
in the type map's enumeration order, and nothing else. -/
theorem getChildBlockNames_spec (st : BlocksState) (b : String) :
    getChildBlockNames st b =
      ((st.blockTypes.map (fun kv => kv.2)).filter
        (fun bt => decide (b ∈ parentList bt))).map (fun bt => bt.name) ∧
    ∀ n, n ∈ getChildBlockNames st b ↔
      ∃ bt, bt ∈ st.blockTypes.map (fun kv => kv.2) ∧
        b ∈ parentList bt ∧ bt.name = n := by
  have hrw : getChildBlockNames st b =
      ((st.blockTypes.map (fun kv => kv.2)).filter
        (fun bt => decide (b ∈ parentList bt))).map (fun bt => bt.name) := by
    rw [getChildBlockNames, List.filter_map, List.map_map]
    simp only [Function.comp_def, contains_eq_decide_mem]
  refine ⟨hrw, ?_⟩
  intro n
  rw [hrw]
  simp only [List.mem_map, List.mem_filter, decide_eq_true_iff]
  constructor
  · rintro ⟨bt, ⟨hmem, hpar⟩, rfl⟩
    exact ⟨bt, hmem, hpar, rfl⟩
  · rintro ⟨bt, hmem, hpar, rfl⟩
    exact ⟨bt, ⟨hmem, hpar⟩, rfl⟩

/-- C6 witness: on a registry where only `core/column` declares
`core/columns` as parent, the child names are exactly
`[core/column]`. -/
theorem getChildBlockNames_witness :
    getChildBlockNames c6St "core/columns" = ["core/column"] := by
  rw [(getChildBlockNames_spec c6St "core/columns").1]
  decide

/-- C7 counterexample: for the unregistered name `core/missing`,
`getBlockType` is absent as claimed, but `getBlockVariations` returns the
separately stored variations entry rather than absent, and
`getChildBlockNames` returns the non-empty list of blocks declaring
`core/missing` as parent rather than the empty sequence. -/
theorem unregistered_name_counterexample :
    getBlockType c7St "core/missing" = none ∧
    getBlockVariations c7St "core/missing" none = some [c7Var] ∧
    getChildBlockNames c7St "core/missing" = ["core/a"] :=
  ⟨rfl, rfl, rfl⟩

/-- C7 (amended): for an unregistered block name, the guarded query
functions degrade gracefully instead of raising: `getBlockSupport`
returns the caller-supplied default (and `hasBlockSupport` its
truthiness); `getBlockVariations` and `getDefaultBlockVariation` depend
only on the separately stored variations and return absent when none are
stored for that name; `getChildBlockNames` returns the names of blocks
declaring the name as parent and is empty when no block does (and the
child-block predicates are then false). -/
theorem unregistered_name_graceful (st : BlocksState) (nm : String)
    (h : getBlockType st nm = none) :
    (∀ feature d, getBlockSupport st (.name nm) feature d = d) ∧
    (∀ feature d, hasBlockSupport st (.name nm) feature d = truthy d) ∧
    (st.blockVariations.lookup nm = none →
      ∀ sc, getBlockVariations st nm sc = none ∧
        getDefaultBlockVariation st nm sc = none) ∧
    ((∀ kv ∈ st.blockTypes, ¬ nm ∈ parentList kv.2) →
      getChildBlockNames st nm = [] ∧
      hasChildBlocks st nm = false ∧
      hasChildBlocksWithInserterSupport st nm = false) := by
  refine ⟨?_, ?_, ?_, ?_⟩
  · intro feature d
    simp [getBlockSupport, getNormalizedBlockType, h]
  · intro feature d
    simp [hasBlockSupport, getBlockSupport, getNormalizedBlockType, h]
  · intro hv sc
    cases sc <;>
      simp [getDefaultBlockVariation, getBlockVariations, hv]
  · intro hnp
    have hfil : st.blockTypes.filter
        (fun kv => (parentList kv.2).contains nm) = [] := by
      rw [List.filter_eq_nil_iff]
      intro kv hkv
      rw [contains_eq_decide_mem]
      simpa using hnp kv hkv
    have hnames : getChildBlockNames st nm = [] := by
      rw [getChildBlockNames, hfil]
      rfl
    refine ⟨hnames, ?_, ?_⟩
    · rw [hasChildBlocks, hnames]
      rfl
    · rw [hasChildBlocksWithInserterSupport, hnames]
      rfl

/-- C7 witness: on the empty registry, querying the unregistered name
`core/x` yields the default, absent, and empty results. -/
theorem unregistered_name_witness :
    getBlockSupport c7wSt (.name "core/x") "color" (.bool false) =
        .bool false ∧
    getBlockVariations c7wSt "core/x" none = none ∧
    getDefaultBlockVariation c7wSt "core/x" none = none ∧
    getChildBlockNames c7wSt "core/x" = [] := by
  have h := unregistered_name_graceful c7wSt "core/x" rfl
  exact ⟨h.1 "color" (.bool false), (h.2.2.1 rfl none).1,
    (h.2.2.1 rfl none).2, (h.2.2.2 (by simp [c7wSt])).1⟩

/-- C8: `getBlockTypes` has one entry per registered BlockType: mapping
each entry back to its BlockType recovers exactly the registered type
map's values in order (the annotation changes nothing else), and every
entry's `variations` field is the unscoped `getBlockVariations` result
for that block's name. -/
theorem getBlockTypes_spec (st : BlocksState) :
    (getBlockTypes st).map (fun e => e.blockType) =
      st.blockTypes.map (fun kv => kv.2) ∧
    ∀ e ∈ getBlockTypes st,
      e.variations = getBlockVariations st e.blockType.name none := by
  constructor
  · rw [getBlockTypes, List.map_map]
    simp [Function.comp_def]
  · intro e he
    rw [getBlockTypes] at he
    simp only [List.mem_map] at he
    obtain ⟨bt, hbt, rfl⟩ := he
    rfl

/-- C8 witness: on a registry with one block `core/a` carrying one
variation, the `getBlockTypes` entry's `variations` field is exactly the
unscoped `getBlockVariations` result. -/
theorem getBlockTypes_witness :
    some [c8Var] = getBlockVariations c8St "core/a" none :=
  (getBlockTypes_spec c8St).2
    { blockType := c8Bt, variations := some [c8Var] } (List.Mem.head _)

/-- Resolving a registered pair's block type by its own name, under the
registry invariant. -/
theorem getBlockType_name_of_wf {st : BlocksState}
    (wf : WellFormedTypes st) {k : String} {bt : BlockType}
    (hkv : (k, bt) ∈ st.blockTypes) :
    getBlockType st bt.name = some bt := by
  have hk := wf.1 (k, bt) hkv
  simp only at hk
  rw [getBlockType, ← hk]
  exact lookup_of_mem_nodupKeys wf.2 hkv

/-- C9: under the registry invariant (each block stored under its own
unique name), `hasChildBlocksWithInserterSupport` is true exactly when
some registered block type declaring the given name as parent has a
truthy effective `supports.inserter` value, the default being `true` when
`supports.inserter` is not declared. -/
theorem hasChildBlocksWithInserterSupport_spec (st : BlocksState)
    (blockName : String) (wf : WellFormedTypes st) :
    hasChildBlocksWithInserterSupport st blockName = true ↔
      ∃ bt, bt ∈ st.blockTypes.map (fun kv => kv.2) ∧
        blockName ∈ parentList bt ∧
        truthy (inserterSupportValue bt) = true := by
  rw [hasChildBlocksWithInserterSupport, List.any_eq_true]
  constructor
  · rintro ⟨childName, hmem, hsupp⟩
    rw [getChildBlockNames] at hmem
    simp only [List.mem_map, List.mem_filter] at hmem
    obtain ⟨⟨k, bt⟩, ⟨hkv, hpar⟩, rfl⟩ := hmem
    dsimp only at hpar hsupp
    rw [contains_eq_decide_mem, decide_eq_true_iff] at hpar
    have hres : getNormalizedBlockType st (.name bt.name) = some bt :=
      getBlockType_name_of_wf wf hkv
    rw [hasBlockSupport, getBlockSupport_inserter st _ bt hres] at hsupp
    exact ⟨bt, List.mem_map_of_mem _ hkv, hpar, hsupp⟩
  · rintro ⟨bt, hbtm, hpar, htru⟩
    obtain ⟨⟨k, bt2⟩, hkv, rfl⟩ := List.mem_map.mp hbtm
    dsimp only at hpar htru
    have hres : getNormalizedBlockType st (.name bt2.name) = some bt2 :=
      getBlockType_name_of_wf wf hkv
    refine ⟨bt2.name, ?_, ?_⟩
    · rw [getChildBlockNames]
      exact List.mem_map_of_mem _ (List.mem_filter.mpr ⟨hkv, by
        rw [contains_eq_decide_mem]
        exact decide_eq_true hpar⟩)
    · rw [hasBlockSupport, getBlockSupport_inserter st _ bt2 hres]
      exact htru

/-- The all-children-opt-out registry satisfies the registry
invariant. -/
theorem c9wf : WellFormedTypes c9St := by
  constructor
  · intro kv hkv
    simp only [c9St, List.mem_cons, List.mem_singleton] at hkv
    rcases hkv with rfl | rfl | hkv
    · rfl
    · rfl
    · cases hkv
  · decide

/-- C9 witness: when the block has children but all of them declare
`supports.inserter = false`, the result is false. -/
theorem hasChildBlocksWithInserterSupport_witness :
    hasChildBlocksWithInserterSupport c9St "core/columns" = false := by
  have h := hasChildBlocksWithInserterSupport_spec c9St "core/columns" c9wf
  rw [Bool.eq_false_iff]
  intro htrue
  obtain ⟨bt, hmem, hpar, htru⟩ := h.mp htrue
  simp [c9St, List.mem_cons] at hmem
  rcases hmem with rfl | rfl
  · exact absurd htru (by decide)
  · exact absurd htru (by decide)

/-- C10: for a resolvable block type, any search term normalizing to the
empty string (empty, or whitespace and diacritical marks only) matches:
the empty normalized term is a substring of every candidate, so no term
is rejected outright. -/
theorem isMatchingSearchTerm_empty_term_spec (st : BlocksState)
    (nameOrType : NameOrType) (bt : BlockType) (searchTerm : String)
    (hbt : getNormalizedBlockType st nameOrType = some bt)
    (hterm : getNormalizedSearchTerm searchTerm = "") :
    isMatchingSearchTerm st nameOrType searchTerm = some true := by
  simp only [isMatchingSearchTerm, hbt, hterm]
  have h1 : strIncludes (getNormalizedSearchTerm bt.title) "" = true :=
    containsSub_nil_needle _
  simp [h1]

/-- C10 witness: a whitespace-only search term matches. -/
theorem isMatchingSearchTerm_empty_term_witness :
    isMatchingSearchTerm c10St (.name "core/x") "   " = some true :=
  isMatchingSearchTerm_empty_term_spec c10St (.name "core/x") c10Bt
    "   " rfl (by decide)

end Blocks
